import Mathlib

/-!
# trakx: UDP engine and peer database

A shallow embedding of the parts of the tracker that the theorems below are
about:

* `tracker/udp/udptracker.go`  : `UDPTracker.Process`
* `tracker/udp/scrape.go`      : `scrape.unmarshall`, `scrapeResp.marshall`,
  `udpTracker.scrape`
* `tracker/shared/peerdb.go`   : `PeerDatabase.Clean`, `load`, `Load`, `Write`

Go maps are association lists whose keys are pairwise distinct (`WF`), a
`range` loop is a fold over the entries, machine integers are `Int` with the
wrap-around written out, and everything the code does to the outside world
(handler calls, datagrams written, files written, log lines) is returned as data.
-/

namespace Trakx

/-- One octet. -/
abbrev Byte := Fin 256

/-! ## Machine integers -/

/-- Wrap an integer into the range of Go's `int32`. -/
def wrapInt32 (z : Int) : Int := (z + 2 ^ 31) % 2 ^ 32 - 2 ^ 31

/-- Wrap an integer into the range of Go's `int64`. -/
def wrapInt64 (z : Int) : Int := (z + 2 ^ 63) % 2 ^ 64 - 2 ^ 63

/-- Go's `a - b` on `int64` operands. -/
def subInt64 (a b : Int) : Int := wrapInt64 (a - b)

/-- Go's `atomic.AddInt64(&c, d)`: the new value of the counter. -/
def addInt64 (c d : Int) : Int := wrapInt64 (c + d)

/-! ## `udptracker.go` -/

namespace UDP

/-- The `net.UDPAddr` of the peer a datagram came from. -/
structure UDPAddr where
  IP : List Byte
  Port : Int
  Zone : String
deriving DecidableEq, Repr

/-- The header `Process` decodes from every datagram (`Connect` in
`udptracker.go`; its declaration is in a file that is not among
the sources embedded here, the fields are the ones `Process` reads). -/
structure Connect where
  ConnectionID : Int
  Action : Int
  TransactionID : Int
deriving DecidableEq, Repr

/-- The error value `Process` builds, `Error{Action, TransactionID, ErrorString}`. -/
structure Error where
  Action : Int
  TransactionID : Int
  ErrorString : List Byte
deriving DecidableEq, Repr

/-- The bytes of an ASCII string, Go's `[]byte("...")`. -/
def asciiBytes (s : String) : List Byte :=
  s.toList.map (fun c => Fin.ofNat c.toNat)

/-- Go's `copy(addr[:], ip)` into a zeroed `[4]byte`: the first four octets of
`ip`, the rest left zero. -/
def copy4 (ip : List Byte) : List Byte :=
  ip.take 4 ++ List.replicate (4 - (ip.take 4).length) 0

/-- What `Process` does to the rest of the package, in program order. `Ann` is
the decoded announce request (its declaration is not among the sources
embedded here). `writeToUDP` is `u.conn.WriteToUDP`, the one call by which the
package puts a datagram on the wire. -/
inductive Effect (Ann : Type) where
  /-- The call `u.Connect(&connect, remote)`. -/
  | connectHandler (c : Connect) (remote : UDPAddr)
  /-- The call `e.Marshall()`, whose result `Process` drops. -/
  | errorMarshall (e : Error)
  /-- The call `u.Announce(&announce, remote)`. -/
  | announceHandler (a : Ann) (remote : UDPAddr)
  /-- The call `u.Scrape(remote)`. -/
  | scrapeHandler (remote : UDPAddr)
  /-- The call `u.conn.WriteToUDP(b, remote)`. -/
  | writeToUDP (b : List Byte) (remote : UDPAddr)
deriving DecidableEq, Repr

/-- `UDPTracker.Process` (udptracker.go:46-79).

`unmarshall` is `Connect.Unmarshall`, `check` is `connDB.Check` and
`annMarshall` is `Announce.Marshall` applied to a zero `Announce`; none of the
three is defined in the embedded sources, so they are parameters. -/
def Process {Ann : Type} (unmarshall : List Byte → Connect)
    (check : Int → List Byte → Bool) (annMarshall : List Byte → Ann)
    (len : Int) (remote : UDPAddr) (data : List Byte) : List (Effect Ann) :=
  let _ := len
  let connect := unmarshall data
  -- Connecting
  if connect.ConnectionID = 0x41727101980 ∧ connect.Action = 0 then
    [Effect.connectHandler connect remote]
  else
    let addr := copy4 remote.IP
    let checked : List (Effect Ann) :=
      if check connect.ConnectionID addr then []
      else
        [Effect.errorMarshall
          { Action := 3
            TransactionID := connect.TransactionID
            ErrorString := asciiBytes "Invalid ConnectionID" }]
    let dispatched : List (Effect Ann) :=
      if connect.Action = 1 then [Effect.announceHandler (annMarshall data) remote]
      else if connect.Action = 2 then [Effect.scrapeHandler remote]
      else []
    checked ++ dispatched

end UDP

/-! ## Shared types (`tracker/shared`) -/

namespace Shared

/-- Modelled from the spec: `shared.Hash`, whose declaration is not part of the
embedded sources. The spec fixes it as an opaque 20-byte identifier kept in a
fixed-width array; `scrape.go` reads it with `binary.Read`, which takes
fixed-size values only. -/
structure Hash where
  bytes : List Byte
  size : bytes.length = 20
deriving DecidableEq, Repr

/-- The zero value of `Hash`, twenty zero octets. -/
def Hash.zero : Hash := ⟨List.replicate 20 0, by simp⟩

/-- Modelled from the spec: `shared.PeerID`, a fixed-width 20-byte array chosen
by the client; its declaration is not among the sources embedded here. -/
structure PeerID where
  bytes : List Byte
  size : bytes.length = 20
deriving DecidableEq, Repr

/-- Modelled from the spec: the peer record `shared.Peer` (address, port,
completion flag, last-seen time in seconds); its declaration is not part of the
embedded sources. `LastSeen` is the `int64` field `Clean` reads. -/
structure Peer where
  Complete : Bool
  IP : List Byte
  Port : Nat
  LastSeen : Int
deriving DecidableEq, Repr

/-- A Go `map[K]V`: the entries in some iteration order. The keys of a map are
pairwise distinct, see `keysNodup`. -/
abbrev GoMap (K V : Type) := List (K × V)

/-- The value type of `PeerDatabase`: `map[PeerID]Peer`. -/
abbrev PeerMap := GoMap PeerID Peer

/-- The declaration `type PeerDatabase map[Hash]map[PeerID]Peer` (peerdb.go:13). -/
abbrev PeerDatabase := GoMap Hash PeerMap

namespace GoMap

variable {K V : Type} [DecidableEq K]

/-- Go's `m[k]` with the comma-ok form: the value stored under `k`, if any. -/
def get? (m : GoMap K V) (k : K) : Option V :=
  match m with
  | [] => none
  | (k', v) :: rest => if k' = k then some v else get? rest k

/-- Go's `delete(m, k)`. -/
def delete (m : GoMap K V) (k : K) : GoMap K V :=
  m.filter (fun e => decide (e.1 ≠ k))

/-- The map in which the value under `k` is replaced by `f` of it; absent keys
stay absent. This is what mutating the inner map `m[k]` in place does to `m`. -/
def modify (m : GoMap K V) (k : K) (f : V → V) : GoMap K V :=
  m.map (fun e => if e.1 = k then (e.1, f e.2) else e)

/-- The keys of a map are pairwise distinct. -/
def keysNodup (m : GoMap K V) : Prop := (m.map Prod.fst).Nodup

instance (m : GoMap K V) : Decidable (keysNodup m) := by
  unfold keysNodup; infer_instance

end GoMap

/-- A well-formed database: it is a map, and so is each swarm in it. -/
def PeerDatabase.WF (db : PeerDatabase) : Prop :=
  GoMap.keysNodup db ∧ ∀ e ∈ db, GoMap.keysNodup e.2

instance (db : PeerDatabase) : Decidable (PeerDatabase.WF db) := by
  unfold PeerDatabase.WF; infer_instance

/-- The peer stored for `id` in the swarm of `h`: `PeerDB[h][id]`. -/
def PeerDatabase.peer? (db : PeerDatabase) (h : Hash) (id : PeerID) : Option Peer :=
  match GoMap.get? db h with
  | none => none
  | some swarm => GoMap.get? swarm id

/-- Modelled from the spec: `PeerDatabase.HashStats`, which is not part of the
embedded sources. The spec's `stats(info_hash)` returns the swarm's `complete`
(count of records whose completion flag is true) and `incomplete` (count where
it is false); a swarm that is absent or empty reports zeroes. The two results
are `int32` in the code (`scrape.go` stores them in `int32` fields). -/
def PeerDatabase.HashStats (db : PeerDatabase) (h : Hash) : Int × Int :=
  match GoMap.get? db h with
  | none => (0, 0)
  | some swarm =>
    (wrapInt32 ((swarm.filter (fun e => e.2.Complete)).length),
     wrapInt32 ((swarm.filter (fun e => !e.2.Complete)).length))

end Shared

/-! ## `encoding/binary`, big-endian -/

namespace Binary

/-- The value of a big-endian octet string as an unsigned number. -/
def beNat (bs : List Byte) : Nat :=
  bs.foldl (fun acc b => acc * 256 + b.val) 0

/-- Read an unsigned `w`-bit pattern as a two's-complement signed number. -/
def toSigned (w : Nat) (n : Nat) : Int :=
  if n < 2 ^ (w - 1) then (n : Int) else (n : Int) - 2 ^ w

/-- The 4 octets `binary.BigEndian` writes for an `int32`: the two's-complement
bit pattern of the value, most significant octet first. -/
def be32 (v : Int) : List Byte :=
  let n := (v % 2 ^ 32).toNat
  [Fin.ofNat (n / 2 ^ 24), Fin.ofNat (n / 2 ^ 16), Fin.ofNat (n / 2 ^ 8), Fin.ofNat n]

end Binary

/-! ## `scrape.go` -/

namespace UDP

open Shared Binary

/-- Modelled from the spec: the 16-byte request header `connect` embedded in a
scrape request, `connection_id (8)`, `action (4)`, `transaction_id (4)`; its
declaration is not among the sources embedded here. -/
structure connect where
  ConnectionID : Int
  Action : Int
  TransactionID : Int
deriving DecidableEq, Repr

/-- The request `type scrape struct { Base connect; InfoHash []shared.Hash }`. -/
structure scrape where
  Base : connect
  InfoHash : List Hash
deriving DecidableEq, Repr

/-- The entry `type scrapeInfo struct { Complete, Downloaded, Incomplete int32 }`. -/
structure scrapeInfo where
  Complete : Int
  Downloaded : Int
  Incomplete : Int
deriving DecidableEq, Repr

/-- The response `type scrapeResp struct { Action, TransactionID int32; Info []scrapeInfo }`. -/
structure scrapeResp where
  Action : Int
  TransactionID : Int
  Info : List scrapeInfo
deriving DecidableEq, Repr

/-- A Go `[]byte` as a function receives it: the `len` octets it shows, and the
octets of its backing array that lie between `len` and `cap`. -/
structure ByteSlice where
  elems : List Byte
  spare : List Byte
deriving DecidableEq, Repr

/-- Go's `len(data)`. -/
def ByteSlice.len (d : ByteSlice) : Int := d.elems.length

/-- Go's `cap(data)`. -/
def ByteSlice.cap (d : ByteSlice) : Int := d.elems.length + d.spare.length

/-- How a call ends: with a run-time panic, or by returning. -/
inductive Run (α : Type) where
  /-- The run-time panic, with its message. -/
  | panicked (msg : String)
  /-- The value returned. -/
  | returned (a : α)
deriving DecidableEq, Repr

/-- Go's `data[:hi]`: in range when `0 ≤ hi ≤ cap(data)`; it may show octets
beyond `len(data)`. -/
def ByteSlice.sliceTo (d : ByteSlice) (hi : Nat) : Option (List Byte) :=
  if (hi : Int) ≤ d.cap then some ((d.elems ++ d.spare).take hi) else none

/-- Go's `data[lo:]`: in range when `0 ≤ lo ≤ len(data)`. -/
def ByteSlice.sliceFrom (d : ByteSlice) (lo : Nat) : Option (List Byte) :=
  if (lo : Int) ≤ d.len then some (d.elems.drop lo) else none

/-- The call `binary.Read(bytes.NewReader(b), binary.BigEndian, &s.Base)`: 16
octets are needed; with none there the error is `EOF`, with too few
`unexpected EOF`. -/
def readConnect (b : List Byte) : Except String connect :=
  if b.length = 0 then .error "EOF"
  else if b.length < 16 then .error "unexpected EOF"
  else .ok
    { ConnectionID := toSigned 64 (beNat (b.take 8))
      Action := toSigned 32 (beNat ((b.drop 8).take 4))
      TransactionID := toSigned 32 (beNat ((b.drop 12).take 4)) }

/-- Cut `n` hashes of 20 octets each off the front of `b`; `none` when `b` is
too short. -/
def takeHashes : Nat → List Byte → Option (List Hash)
  | 0, _ => some []
  | n + 1, b =>
    if h : (b.take 20).length = 20 then
      match takeHashes n (b.drop 20) with
      | some rest => some (⟨b.take 20, h⟩ :: rest)
      | none => none
    else none

/-- The call `binary.Read(bytes.NewReader(b), binary.BigEndian, &s.InfoHash)`
with `len(s.InfoHash) = n`: it reads `20 * n` octets (none at all for `n = 0`)
and leaves what follows unread. -/
def readHashes (n : Nat) (b : List Byte) : Except String (List Hash) :=
  if n = 0 then .ok []
  else if b.length = 0 then .error "EOF"
  else
    match takeHashes n b with
    | some hs => .ok hs
    | none => .error "unexpected EOF"

/-- `scrape.unmarshall` (scrape.go:17-24). The result is the error returned
(`none` for `nil`) with the request as the call leaves it. -/
def scrape.unmarshall (s : scrape) (data : ByteSlice) : Run (Option String × scrape) :=
  match data.sliceTo 16 with
  | none => .panicked "slice bounds out of range [:16]"
  | some head =>
    match readConnect head with
    | .error err => .returned (some err, s)
    | .ok base =>
      let n := Int.tdiv (data.len - 16) 20
      if n < 0 then .panicked "makeslice: len out of range"
      else
        match data.sliceFrom 16 with
        | none => .panicked "slice bounds out of range [16:]"
        | some body =>
          match readHashes n.toNat body with
          | .error err =>
            .returned (some err,
              { Base := base, InfoHash := List.replicate n.toNat Hash.zero })
          | .ok hs => .returned (none, { Base := base, InfoHash := hs })

/-- The call `binary.Write(buff, binary.BigEndian, v)` for an `int32`: the
octets appended to the buffer. Writing to a `bytes.Buffer` does not fail. -/
def writeInt32 (v : Int) : Except String (List Byte) := .ok (be32 v)

/-- The call `binary.Write(buff, binary.BigEndian, info)` for a `[]scrapeInfo`
(also a nil one): each entry is three `int32` in field order. -/
def writeInfo (info : List scrapeInfo) : Except String (List Byte) :=
  .ok (info.flatMap
    (fun e => be32 e.Complete ++ be32 e.Downloaded ++ be32 e.Incomplete))

/-- `scrapeResp.marshall` (scrape.go:38-50). -/
def scrapeResp.marshall (sr : scrapeResp) : Except String (List Byte) :=
  match writeInt32 sr.Action with
  | .error err => .error err
  | .ok b1 =>
    match writeInt32 sr.TransactionID with
    | .error err => .error err
    | .ok b2 =>
      match writeInfo sr.Info with
      | .error err => .error err
      | .ok b3 => .ok (b1 ++ b2 ++ b3)

/-- What `udpTracker.scrape` hands to `u.conn.WriteToUDP`. The two error
constructors `newClientError` and `newServerError` are not among the sources
embedded here, so a datagram built by one of them is recorded by its
arguments. -/
inductive Datagram where
  /-- The datagram `newClientError(msg, tx)`. -/
  | clientError (msg : String) (tx : Int)
  /-- The datagram `newServerError(ctx, err, tx)`. -/
  | serverError (ctx : String) (err : String) (tx : Int)
  /-- Octets produced by `scrapeResp.marshall`. -/
  | response (b : List Byte)
deriving DecidableEq, Repr

/-- The counters `shared.ExpvarScrapes` and `shared.ExpvarScrapesOK`. -/
structure Expvar where
  Scrapes : Int
  ScrapesOK : Int
deriving DecidableEq, Repr

/-- What a call of `udpTracker.scrape` leaves behind: the datagrams written, in
order, each with its destination, and the counters. -/
structure ScrapeRun where
  sent : List (Datagram × UDPAddr)
  expvar : Expvar
deriving DecidableEq, Repr

/-- The loop of `udpTracker.scrape` (scrape.go:65-78) over the hashes still to
visit, `resp` being the response built so far. It ends early with the datagram
to send when a hash has the wrong length. -/
def scrapeLoop (db : PeerDatabase) (tx : Int) :
    List Hash → scrapeResp → Except Datagram scrapeResp
  | [], resp => .ok resp
  | hash :: rest, resp =>
    if hash.bytes.length ≠ 20 then .error (Datagram.clientError "bad hash" tx)
    else
      let stats := db.HashStats hash
      let info : scrapeInfo :=
        { Complete := stats.1, Downloaded := -1, Incomplete := stats.2 }
      scrapeLoop db tx rest { resp with Info := resp.Info ++ [info] }

/-- `udpTracker.scrape` (scrape.go:52-90), run on the database `db` with the
counters `ev`. -/
def udpTracker.scrape (db : PeerDatabase) (ev : Expvar) (s : scrape)
    (remote : UDPAddr) : ScrapeRun :=
  let ev1 : Expvar := { ev with Scrapes := addInt64 ev.Scrapes 1 }
  if s.InfoHash.length > 74 then
    { sent := [(Datagram.clientError "74 hashes max" s.Base.TransactionID, remote)]
      expvar := ev1 }
  else
    let resp : scrapeResp :=
      { Action := 2, TransactionID := s.Base.TransactionID, Info := [] }
    match scrapeLoop db s.Base.TransactionID s.InfoHash resp with
    | .error d => { sent := [(d, remote)], expvar := ev1 }
    | .ok resp1 =>
      match resp1.marshall with
      | .error err =>
        { sent := [(Datagram.serverError "ScrapeResp.Marshall()" err
                      s.Base.TransactionID, remote)]
          expvar := ev1 }
      | .ok respBytes =>
        { sent := [(Datagram.response respBytes, remote)]
          expvar := { ev1 with ScrapesOK := addInt64 ev1.ScrapesOK 1 } }

end UDP

/-! ## `peerdb.go` -/

namespace Shared

/-- Modelled from the spec: `Peer.Delete(hash, id)`, which is not part of the
embedded sources. The spec's `remove(info_hash, peer_key)` takes the record with
that key out of that swarm and is idempotent; nothing else in the database
changes, and the swarm stays where it is even when it becomes empty (dropping
empty swarms is what `Clean` does next). The receiver is not consulted. -/
def Peer.Delete (_peer : Peer) (PeerDB : PeerDatabase) (hash : Hash) (id : PeerID) :
    PeerDatabase :=
  GoMap.modify PeerDB hash (fun swarm => GoMap.delete swarm id)

/-- What a run of `Clean` leaves: the database and the two counters it logs. -/
structure CleanRun where
  db : PeerDatabase
  peers : Int
  hashes : Int
deriving DecidableEq, Repr

/-- The inner loop of `Clean`, `for id, peer := range peermap` (peerdb.go:21-26),
over the entries of the swarm still to visit. Deleting the entry being visited
does not disturb a Go `range`, so the loop sees each entry of the swarm once. -/
def cleanPeers (now CleanTimeout : Int) (hash : Hash) :
    List (PeerID × Peer) → CleanRun → CleanRun
  | [], st => st
  | (id, peer) :: rest, st =>
    if subInt64 now peer.LastSeen > CleanTimeout then
      cleanPeers now CleanTimeout hash rest
        { st with db := peer.Delete st.db hash id, peers := st.peers + 1 }
    else
      cleanPeers now CleanTimeout hash rest st

/-- Go's `len(peermap)` after the inner loop: `peermap` is the map stored under
`hash`, so this is the number of entries that swarm has now. -/
def swarmLen (PeerDB : PeerDatabase) (hash : Hash) : Nat :=
  match GoMap.get? PeerDB hash with
  | none => 0
  | some swarm => swarm.length

/-- The outer loop of `Clean`, `for hash, peermap := range PeerDB`
(peerdb.go:20-31), over the entries still to visit. -/
def cleanHashes (now CleanTimeout : Int) :
    List (Hash × PeerMap) → CleanRun → CleanRun
  | [], st => st
  | (hash, peermap) :: rest, st =>
    let st1 := cleanPeers now CleanTimeout hash peermap st
    let st2 : CleanRun :=
      if swarmLen st1.db hash = 0 then
        { st1 with db := GoMap.delete st1.db hash, hashes := st1.hashes + 1 }
      else st1
    cleanHashes now CleanTimeout rest st2

/-- `PeerDatabase.Clean` (peerdb.go:15-34), run at `now = time.Now().Unix()` on
the global `PeerDB`. `CleanTimeout` is a package constant that is not part of the
embedded sources, so it is a parameter. -/
def PeerDatabase.Clean (now CleanTimeout : Int) (PeerDB : PeerDatabase) : CleanRun :=
  cleanHashes now CleanTimeout PeerDB { db := PeerDB, peers := 0, hashes := 0 }

/-- What `os.Stat` answers for a name. -/
inductive StatResult where
  /-- The file is there; `ModTime().UnixNano()` of it. -/
  | info (modTimeUnixNano : Int)
  /-- An error for which `os.IsNotExist` holds. -/
  | notExist
  /-- Any other error. -/
  | failed
deriving DecidableEq, Repr

/-- What the file system holds under one name: the answer of `os.Stat`, and the
octets a reader gets after `os.Open` (`none` when `os.Open` fails). -/
structure Node where
  stat : StatResult
  content : Option (List Byte)
deriving DecidableEq, Repr

/-- The file system, by name. -/
abbrev FS := String → Node

/-- The file system after `ioutil.WriteFile(name, data, 0644)` succeeded at
time `mtime`. -/
def FS.writeFile (fs : FS) (name : String) (data : List Byte) (mtime : Int) : FS :=
  fun n => if n = name then { stat := StatResult.info mtime, content := some data } else fs n

/-- Modelled from the spec: the constant `PeerDBTempFilename`, which is not among
the sources embedded here. The spec puts the temp snapshot at `<db>.tmp`, the name
`Load` passes to `os.Stat`. -/
def PeerDBTempFilename (PeerDBFilename : String) : String := PeerDBFilename ++ ".tmp"

/-- The gob decoder, `gob.NewDecoder(file).Decode(&PeerDB)`: from the octets of
the file and the database it decodes into, the database afterwards and the
error (`none` for `nil`). It is library code, so it is a parameter. -/
abbrev GobDecode := List Byte → PeerDatabase → PeerDatabase × Option String

/-- The gob encoder, `gob.NewEncoder(buff).Encode(&PeerDB)`: the octets in the
buffer afterwards and the error (`none` for `nil`). It is library code, so it
is a parameter. -/
abbrev GobEncode := PeerDatabase → List Byte × Option String

/-- `PeerDatabase.load` (peerdb.go:36-44): the global `PeerDB` afterwards and
the error returned. -/
def PeerDatabase.load (gobDecode : GobDecode) (fs : FS) (filename : String)
    (PeerDB : PeerDatabase) : PeerDatabase × Option String :=
  match (fs filename).content with
  | none => (PeerDB, some "open")
  | some file => gobDecode file PeerDB

/-- What a run of `Load` leaves: the global `PeerDB`, the file names passed to
`load` in order, and the messages logged. -/
structure LoadRun where
  db : PeerDatabase
  attempts : List String
  log : List String
deriving DecidableEq, Repr

/-- `PeerDatabase.Load` (peerdb.go:46-111), run on the global `PeerDB`.
`PeerDBFilename` is a package constant that is not among the sources embedded here,
so it is a parameter. -/
def PeerDatabase.Load (gobDecode : GobDecode) (fs : FS) (PeerDBFilename : String)
    (PeerDB : PeerDatabase) : LoadRun :=
  let statFull := (fs PeerDBFilename).stat
  let loadtemp1 : Bool :=
    match statFull with
    | .notExist => true
    | _ => false
  let log1 : List String :=
    match statFull with
    | .notExist => ["No full database"]
    | .failed => ["os.Stat"]
    | .info _ => []
  let statTemp := (fs (PeerDBFilename ++ ".tmp")).stat
  if statTemp = StatResult.notExist ∧ loadtemp1 = true then
    { db := [], attempts := []
      log := log1 ++ ["No temp database", "No database found"] }
  else
    let log2 : List String :=
      match statTemp with
      | .notExist => log1 ++ ["No temp database"]
      | .failed => log1 ++ ["os.Stat"]
      | .info _ => log1
    let loadtemp2 : Bool :=
      match statFull, statTemp with
      | .info full, .info temp => if temp > full then true else loadtemp1
      | _, _ => loadtemp1
    if loadtemp2 = true then
      match PeerDatabase.load gobDecode fs (PeerDBTempFilename PeerDBFilename) PeerDB with
      | (db1, some _) =>
        match PeerDatabase.load gobDecode fs PeerDBFilename db1 with
        | (_, some _) =>
          { db := [], attempts := [PeerDBTempFilename PeerDBFilename, PeerDBFilename]
            log := log2 ++ ["Loading temp db failed", "Loading full db failed"] }
        | (db2, none) =>
          { db := db2, attempts := [PeerDBTempFilename PeerDBFilename, PeerDBFilename]
            log := log2 ++ ["Loading temp db failed", "Loaded database full"] }
      | (db1, none) =>
        { db := db1, attempts := [PeerDBTempFilename PeerDBFilename]
          log := log2 ++ ["Loaded database temp"] }
    else
      match PeerDatabase.load gobDecode fs PeerDBFilename PeerDB with
      | (db1, some _) =>
        match PeerDatabase.load gobDecode fs (PeerDBTempFilename PeerDBFilename) db1 with
        | (_, some _) =>
          { db := [], attempts := [PeerDBFilename, PeerDBTempFilename PeerDBFilename]
            log := log2 ++ ["Loading full db failed", "Loading temp db failed"] }
        | (db2, none) =>
          { db := db2, attempts := [PeerDBFilename, PeerDBTempFilename PeerDBFilename]
            log := log2 ++ ["Loading full db failed", "Loaded database temp"] }
      | (db1, none) =>
        { db := db1, attempts := [PeerDBFilename]
          log := log2 ++ ["Loaded database full"] }

/-- What a run of `Write` leaves: the global `PeerDB`, the calls of
`ioutil.WriteFile` made (name and data) in order, and the messages logged. -/
structure WriteRun where
  db : PeerDatabase
  writes : List (String × List Byte)
  log : List String
deriving DecidableEq, Repr

/-- `PeerDatabase.Write` (peerdb.go:113-133), run at time `now` on the global
`PeerDB`. `writeFile` is the error `ioutil.WriteFile` returns for a name and
data (`none` for `nil`). -/
def PeerDatabase.Write (gobEncode : GobEncode) (writeFile : String → List Byte → Option String)
    (now CleanTimeout : Int) (PeerDBFilename : String) (istemp : Bool)
    (PeerDB : PeerDatabase) : WriteRun :=
  let cleaned := PeerDatabase.Clean now CleanTimeout PeerDB
  let encoded := gobEncode cleaned.db
  let log1 : List String :=
    match encoded.2 with
    | some _ => ["Cleaned PeerDatabase", "db gob encoder"]
    | none => ["Cleaned PeerDatabase"]
  let filename := if istemp then PeerDBTempFilename PeerDBFilename else PeerDBFilename
  let log2 : List String :=
    match writeFile filename encoded.1 with
    | some _ => log1 ++ ["db writefile"]
    | none => log1
  { db := cleaned.db, writes := [(filename, encoded.1)], log := log2 ++ ["Wrote database"] }

/-! ### What `Clean` and `Load` are compared with -/

/-- Whether `Clean` keeps a peer: the negation of the test
`now-peer.LastSeen > CleanTimeout` of the source, in `int64` arithmetic. -/
def kept (now CleanTimeout : Int) (peer : Peer) : Bool :=
  decide (subInt64 now peer.LastSeen ≤ CleanTimeout)

/-- The identifiers of the peers in `l` that `Clean` removes. -/
def expiredIds (now CleanTimeout : Int) (l : List (PeerID × Peer)) : List PeerID :=
  (l.filter (fun e => !kept now CleanTimeout e.2)).map Prod.fst

/-- What `Clean` makes of one entry of the database: the swarm without its
expired peers, or nothing when no peer is left. -/
def cleanEntry (now CleanTimeout : Int) (e : Hash × PeerMap) : Option (Hash × PeerMap) :=
  if (e.2.filter (fun x => kept now CleanTimeout x.2)).length = 0 then none
  else some (e.1, e.2.filter (fun x => kept now CleanTimeout x.2))

/-- The fallback the spec describes, for a given order of the two files: load
`first`; if that fails load `second`; if that fails too the database is the
empty map. The result is the database and the names passed to `load`. -/
def loadWithFallback (gobDecode : GobDecode) (fs : FS) (first second : String)
    (PeerDB : PeerDatabase) : PeerDatabase × List String :=
  match PeerDatabase.load gobDecode fs first PeerDB with
  | (db1, none) => (db1, [first])
  | (db1, some _) =>
    match PeerDatabase.load gobDecode fs second db1 with
    | (db2, none) => (db2, [first, second])
    | (_, some _) => ([], [first, second])

end Shared

namespace UDP

open Shared Binary

/-! ### What `marshall` and `scrape` are compared with -/

/-- The octets of one `scrapeInfo` on the wire. -/
def infoBytes (e : scrapeInfo) : List Byte :=
  be32 e.Complete ++ be32 e.Downloaded ++ be32 e.Incomplete

/-- The entry `udpTracker.scrape` is to report for one hash: the two counts of
`HashStats` around the constant `-1`. -/
def statsEntry (db : PeerDatabase) (hash : Hash) : scrapeInfo :=
  { Complete := (db.HashStats hash).1, Downloaded := -1, Incomplete := (db.HashStats hash).2 }

/-! ## Sample inputs -/

/-- Modelled from the spec: `Connect.Unmarshall`, which is not part of the
embedded sources, reading the header the spec lays out: `connection_id (8)`,
`action (4)`, `transaction_id (4)`, big-endian. It is used for sample inputs
only; `Process` takes the decoder as a parameter. -/
def decodeHeader (data : List Byte) : Connect :=
  { ConnectionID := toSigned 64 (beNat (data.take 8))
    Action := toSigned 32 (beNat ((data.drop 8).take 4))
    TransactionID := toSigned 32 (beNat ((data.drop 12).take 4)) }

/-- A client at 10.0.0.2. -/
def sampleRemote : UDPAddr := { IP := [10, 0, 0, 2], Port := 6881, Zone := "" }

/-- A header with connection id 1, which is not the protocol id, action 0 and
transaction id 7. -/
def staleHeader : List Byte := [0, 0, 0, 0, 0, 0, 0, 1, 0, 0, 0, 0, 0, 0, 0, 7]

/-- An announce request (98 octets) with connection id 1, action 1 and
transaction id 7. -/
def staleAnnounce : List Byte :=
  [0, 0, 0, 0, 0, 0, 0, 1, 0, 0, 0, 1, 0, 0, 0, 7] ++ List.replicate 82 0

/-- A scrape request (36 octets) with connection id 1, action 2 and
transaction id 7. -/
def staleScrape : List Byte :=
  [0, 0, 0, 0, 0, 0, 0, 1, 0, 0, 0, 2, 0, 0, 0, 7] ++ List.replicate 20 0

/-- A connection database that knows no connection id. -/
def noConnections : Int → List Byte → Bool := fun _ _ => false

end UDP

namespace Shared

/-- The hash made of twenty octets `b`. -/
def Hash.ofByte (b : Byte) : Hash := ⟨List.replicate 20 b, by simp⟩

/-- The peer id made of twenty octets `b`. -/
def PeerID.ofByte (b : Byte) : PeerID := ⟨List.replicate 20 b, by simp⟩

/-- A database of three swarms: a seeder last seen at 100 and a leecher last
seen at 40; one leecher last seen at 39; and a swarm without peers. -/
def sampleDB : PeerDatabase :=
  [(Hash.ofByte 1,
      [(PeerID.ofByte 1, { Complete := true, IP := [10, 0, 0, 1], Port := 6881, LastSeen := 100 }),
       (PeerID.ofByte 2, { Complete := false, IP := [10, 0, 0, 2], Port := 6882, LastSeen := 40 })]),
   (Hash.ofByte 2,
      [(PeerID.ofByte 1, { Complete := false, IP := [10, 0, 0, 1], Port := 6881, LastSeen := 39 })]),
   (Hash.ofByte 3, [])]

/-- A file system with a full snapshot written at 100 and a temp snapshot
written at 200 under the name `trakx.db`. -/
def sampleFS : FS := fun name =>
  if name = "trakx.db" then { stat := StatResult.info 100, content := some [1] }
  else if name = "trakx.db.tmp" then { stat := StatResult.info 200, content := some [2] }
  else { stat := StatResult.notExist, content := none }

/-- A file system without any file. -/
def emptyFS : FS := fun _ => { stat := StatResult.notExist, content := none }

/-- A decoder that rejects every file. -/
def rejectAll : GobDecode := fun _ PeerDB => (PeerDB, some "gob: bad data")

end Shared

namespace UDP

open Shared Binary

/-- A scrape request for the two swarms of `sampleDB` that have peers and for a
hash the database does not know. -/
def sampleScrape : scrape :=
  { Base := { ConnectionID := 1, Action := 2, TransactionID := 7 }
    InfoHash := [Hash.ofByte 1, Hash.ofByte 2, Hash.ofByte 9] }

end UDP

end Trakx

namespace Trakx
namespace Shared

open Binary

/-! ### A sample snapshot codec -/

/-- The 8 octets of an `int64`, big-endian two's complement. -/
def be64 (v : Int) : List Byte :=
  let n := (v % 2 ^ 64).toNat
  [Fin.ofNat (n / 2 ^ 56), Fin.ofNat (n / 2 ^ 48), Fin.ofNat (n / 2 ^ 40),
   Fin.ofNat (n / 2 ^ 32), Fin.ofNat (n / 2 ^ 24), Fin.ofNat (n / 2 ^ 16),
   Fin.ofNat (n / 2 ^ 8), Fin.ofNat n]

/-- One peer of a swarm as octets: the id, the completion flag, the address
with its length in front, the port and the last-seen time. -/
def sampleEncodePeer (e : PeerID × Peer) : List Byte :=
  e.1.bytes ++ [if e.2.Complete then 1 else 0] ++ [Fin.ofNat e.2.IP.length] ++ e.2.IP ++
    [Fin.ofNat (e.2.Port / 256), Fin.ofNat e.2.Port] ++ be64 e.2.LastSeen

/-- One swarm as octets: the hash, the number of peers, the peers. -/
def sampleEncodeSwarm (e : Hash × PeerMap) : List Byte :=
  e.1.bytes ++ [Fin.ofNat e.2.length] ++ e.2.flatMap sampleEncodePeer

/-- A stand-in for the gob encoder on small databases: the number of swarms,
then the swarms. It never fails. -/
def sampleEncode : GobEncode := fun db =>
  (Fin.ofNat db.length :: db.flatMap sampleEncodeSwarm, none)

/-- Read `n` peers off the front of `b`; the peers and what is left of `b`. -/
def sampleDecodePeers : Nat → List Byte → Option (PeerMap × List Byte)
  | 0, b => some ([], b)
  | n + 1, b =>
    if h : (b.take 20).length = 20 then
      match b.drop 20 with
      | complete :: iplen :: rest =>
        match rest.drop iplen.val with
        | hi :: lo :: rest2 =>
          if (rest2.take 8).length = 8 then
            match sampleDecodePeers n (rest2.drop 8) with
            | some (peers, left) =>
              some ((⟨b.take 20, h⟩,
                     { Complete := decide (complete ≠ 0)
                       IP := rest.take iplen.val
                       Port := hi.val * 256 + lo.val
                       LastSeen := toSigned 64 (beNat (rest2.take 8)) }) :: peers, left)
            | none => none
          else none
        | _ => none
      | _ => none
    else none

/-- Read `n` swarms off the front of `b`; the swarms and what is left of `b`. -/
def sampleDecodeSwarms : Nat → List Byte → Option (PeerDatabase × List Byte)
  | 0, b => some ([], b)
  | n + 1, b =>
    if h : (b.take 20).length = 20 then
      match b.drop 20 with
      | count :: rest =>
        match sampleDecodePeers count.val rest with
        | some (peers, left) =>
          match sampleDecodeSwarms n left with
          | some (swarms, left2) => some ((⟨b.take 20, h⟩, peers) :: swarms, left2)
          | none => none
        | none => none
      | _ => none
    else none

/-- A stand-in for the gob decoder: it reads what `sampleEncode` writes and
stores each swarm read under its hash in the database it decodes into, like
gob does for a map; on malformed input the database is left as it was. -/
def sampleDecode : GobDecode := fun file PeerDB =>
  match file with
  | [] => (PeerDB, some "EOF")
  | count :: rest =>
    match sampleDecodeSwarms count.val rest with
    | some (swarms, []) =>
      (swarms ++ PeerDB.filter (fun e => decide (e.1 ∉ swarms.map Prod.fst)), none)
    | _ => (PeerDB, some "gob: bad data")

/-- An encoder that fails after putting two octets in the buffer. -/
def failingEncode : GobEncode := fun _ => ([3, 1], some "gob: type not registered")

/-- An `ioutil.WriteFile` that returns no error for any name and data. -/
def writeSucceeds : String → List Byte → Option String := fun _ _ => none

end Shared
end Trakx

/-! # Theorems -/

namespace Trakx
namespace Shared

/-! ## Lemmas on maps -/

namespace GoMap

theorem keysNodup_filter {K V : Type} (m : GoMap K V) (p : K × V → Bool) (hm : keysNodup m) :
    keysNodup (m.filter p) := by
  unfold keysNodup at *
  exact List.Nodup.sublist (List.Sublist.map _ (List.filter_sublist m)) hm

variable {K V : Type} [DecidableEq K]

theorem modify_modify (m : GoMap K V) (k : K) (f g : V → V) :
    modify (modify m k f) k g = modify m k (g ∘ f) := by
  induction m with
  | nil => rfl
  | cons e rest ih =>
    simp only [modify, List.map_cons] at ih ⊢
    rw [ih]
    by_cases h : e.1 = k <;> simp [h]

theorem modify_of_not_mem (m : GoMap K V) (k : K) (f : V → V)
    (h : k ∉ m.map Prod.fst) : modify m k f = m := by
  induction m with
  | nil => rfl
  | cons e rest ih =>
    simp only [List.map_cons, List.mem_cons, not_or] at h
    simp only [modify, List.map_cons] at ih ⊢
    rw [ih h.2, if_neg (fun h' => h.1 h'.symm)]

theorem modify_append (m₁ m₂ : GoMap K V) (k : K) (f : V → V) :
    modify (m₁ ++ m₂) k f = modify m₁ k f ++ modify m₂ k f := by
  simp [modify]

theorem modify_cons_self (m : GoMap K V) (k : K) (v : V) (f : V → V) :
    modify ((k, v) :: m) k f = (k, f v) :: modify m k f := by
  simp [modify]

theorem delete_of_not_mem (m : GoMap K V) (k : K)
    (h : k ∉ m.map Prod.fst) : delete m k = m := by
  induction m with
  | nil => rfl
  | cons e rest ih =>
    simp only [List.map_cons, List.mem_cons, not_or] at h
    have h1 : e.1 ≠ k := fun h' => h.1 h'.symm
    simp only [delete] at ih ⊢
    rw [List.filter_cons_of_pos (by simpa using h1), ih h.2]

theorem delete_append (m₁ m₂ : GoMap K V) (k : K) :
    delete (m₁ ++ m₂) k = delete m₁ k ++ delete m₂ k := by
  simp [delete]

theorem delete_cons_self (m : GoMap K V) (k : K) (v : V) :
    delete ((k, v) :: m) k = delete m k := by
  simp [delete]

theorem get?_append_of_not_mem (m₁ m₂ : GoMap K V) (k : K)
    (h : k ∉ m₁.map Prod.fst) : get? (m₁ ++ m₂) k = get? m₂ k := by
  induction m₁ with
  | nil => rfl
  | cons e rest ih =>
    simp only [List.map_cons, List.mem_cons, not_or] at h
    obtain ⟨k', v⟩ := e
    simp only [List.cons_append, get?]
    rw [if_neg (fun h' => h.1 h'.symm)]
    exact ih h.2

theorem get?_cons_self (m : GoMap K V) (k : K) (v : V) :
    get? ((k, v) :: m) k = some v := by
  simp [get?]

theorem get?_eq_none_of_not_mem (m : GoMap K V) (k : K)
    (h : k ∉ m.map Prod.fst) : get? m k = none := by
  induction m with
  | nil => rfl
  | cons e rest ih =>
    simp only [List.map_cons, List.mem_cons, not_or] at h
    obtain ⟨k', v⟩ := e
    simp only [get?]
    rw [if_neg (fun h' => h.1 h'.symm), ih h.2]

theorem mem_of_get?_eq_some (m : GoMap K V) (k : K) (v : V)
    (h : get? m k = some v) : (k, v) ∈ m := by
  induction m with
  | nil => simp [get?] at h
  | cons e rest ih =>
    obtain ⟨k', v'⟩ := e
    simp only [get?] at h
    by_cases hk : k' = k
    · rw [if_pos hk] at h
      cases h
      subst hk
      exact List.mem_cons_self _ _
    · rw [if_neg hk] at h
      exact List.mem_cons_of_mem _ (ih h)

/-- Filtering the values of a map with distinct keys: the entry under `k`
survives exactly when its value passes. -/
theorem get?_filter (m : GoMap K V) (p : V → Bool) (k : K) (hm : keysNodup m) :
    get? (m.filter (fun e => p e.2)) k = (get? m k).filter p := by
  induction m with
  | nil => rfl
  | cons e rest ih =>
    obtain ⟨k', v⟩ := e
    have hm' : keysNodup rest := (List.nodup_cons.mp hm).2
    have hk' : k' ∉ rest.map Prod.fst := (List.nodup_cons.mp hm).1
    by_cases hk : k' = k
    · subst hk
      by_cases hp : p v = true
      · rw [List.filter_cons_of_pos (by simpa using hp)]
        simp [get?, Option.filter, hp]
      · rw [List.filter_cons_of_neg (by simpa using hp)]
        rw [ih hm', get?_eq_none_of_not_mem rest k' hk']
        simp [get?, Option.filter, hp]
    · by_cases hp : p v = true
      · rw [List.filter_cons_of_pos (by simpa using hp)]
        simp only [get?, if_neg hk]
        exact ih hm'
      · rw [List.filter_cons_of_neg (by simpa using hp)]
        simp only [get?, if_neg hk]
        exact ih hm'

end GoMap

/-! ## `Clean` -/

/-- Where the difference fits in an `int64`, Go's `a - b` is the difference. -/
theorem subInt64_of_range (a b : Int) (h1 : -2 ^ 63 ≤ a - b) (h2 : a - b < 2 ^ 63) :
    subInt64 a b = a - b := by
  unfold subInt64 wrapInt64
  norm_num at h1 h2 ⊢
  omega

theorem cleanPeers_db (now CleanTimeout : Int) (hash : Hash) (l : List (PeerID × Peer))
    (st : CleanRun) :
    (cleanPeers now CleanTimeout hash l st).db =
      GoMap.modify st.db hash
        (fun swarm => swarm.filter (fun e => decide (e.1 ∉ expiredIds now CleanTimeout l))) := by
  induction l generalizing st with
  | nil =>
    simp only [cleanPeers, expiredIds, List.filter_nil, List.map_nil, List.not_mem_nil,
      not_false_eq_true, decide_True, List.filter_true]
    simp [GoMap.modify]
  | cons e rest ih =>
    obtain ⟨id, peer⟩ := e
    by_cases hx : subInt64 now peer.LastSeen > CleanTimeout
    · have hk : kept now CleanTimeout peer = false := by
        simp only [kept, decide_eq_false_iff_not, not_le]; exact hx
      rw [cleanPeers, if_pos hx, ih]
      simp only [Peer.Delete, GoMap.modify_modify]
      congr 1
      funext swarm
      simp only [Function.comp, GoMap.delete, List.filter_filter, expiredIds, hk,
        List.filter_cons, Bool.not_false, if_true, List.map_cons, List.mem_cons, not_or]
      congr 1
      funext x
      by_cases h1 : x.1 = id <;> simp [h1]
    · have hk : kept now CleanTimeout peer = true := by
        simp only [kept, decide_eq_true_eq]; exact not_lt.mp hx
      rw [cleanPeers, if_neg hx, ih]
      have he : expiredIds now CleanTimeout ((id, peer) :: rest) =
          expiredIds now CleanTimeout rest := by
        simp only [expiredIds]
        rw [List.filter_cons_of_neg (by simp [hk])]
      rw [he]

theorem filter_not_expired (now CleanTimeout : Int) (swarm : PeerMap)
    (hs : GoMap.keysNodup swarm) :
    swarm.filter (fun e => decide (e.1 ∉ expiredIds now CleanTimeout swarm)) =
      swarm.filter (fun e => kept now CleanTimeout e.2) := by
  apply List.filter_congr
  intro x hx
  by_cases hk : kept now CleanTimeout x.2 = true
  · rw [hk, decide_eq_true_eq]
    intro hmem
    simp only [expiredIds, List.mem_map, List.mem_filter] at hmem
    obtain ⟨y, ⟨hy, hyk⟩, hxy⟩ := hmem
    have : y = x := by
      have := List.inj_on_of_nodup_map hs hy hx hxy
      exact this
    subst this
    simp [hk] at hyk
  · simp only [Bool.not_eq_true] at hk
    rw [hk, decide_eq_false_iff_not, not_not]
    simp only [expiredIds, List.mem_map, List.mem_filter]
    exact ⟨x, ⟨hx, by simp [hk]⟩, rfl⟩

theorem cleanHashes_db (now CleanTimeout : Int) (l : List (Hash × PeerMap)) :
    ∀ (pre : List (Hash × PeerMap)) (st : CleanRun), st.db = pre ++ l →
      GoMap.keysNodup (pre ++ l) → (∀ e ∈ l, GoMap.keysNodup e.2) →
      (cleanHashes now CleanTimeout l st).db = pre ++ l.filterMap (cleanEntry now CleanTimeout) := by
  induction l with
  | nil =>
    intro pre st hst _ _
    simpa [cleanHashes] using hst
  | cons e rest ih =>
    intro pre st hst hnd hsw
    obtain ⟨hash, peermap⟩ := e
    have hnd' : (pre.map Prod.fst ++ hash :: rest.map Prod.fst).Nodup := by
      simpa [GoMap.keysNodup] using hnd
    have hpre : hash ∉ pre.map Prod.fst := by
      intro hmem
      exact (List.disjoint_of_nodup_append hnd') hmem (List.mem_cons_self _ _)
    have hrest : hash ∉ rest.map Prod.fst :=
      (List.nodup_cons.mp (List.Nodup.of_append_right hnd')).1
    have hpm : GoMap.keysNodup peermap := hsw (hash, peermap) (List.mem_cons_self _ _)
    have hdb1 : (cleanPeers now CleanTimeout hash peermap st).db =
        pre ++ (hash, peermap.filter (fun x => kept now CleanTimeout x.2)) :: rest := by
      rw [cleanPeers_db, hst, GoMap.modify_append, GoMap.modify_cons_self,
        GoMap.modify_of_not_mem pre hash _ hpre, GoMap.modify_of_not_mem rest hash _ hrest,
        filter_not_expired now CleanTimeout peermap hpm]
    have hlen : swarmLen (cleanPeers now CleanTimeout hash peermap st).db hash =
        (peermap.filter (fun x => kept now CleanTimeout x.2)).length := by
      rw [hdb1, swarmLen, GoMap.get?_append_of_not_mem _ _ _ hpre, GoMap.get?_cons_self]
    rw [cleanHashes]
    simp only [hlen]
    by_cases hz : (peermap.filter (fun x => kept now CleanTimeout x.2)).length = 0
    · rw [if_pos hz]
      have hce : cleanEntry now CleanTimeout (hash, peermap) = none := by
        simp only [cleanEntry]; rw [if_pos hz]
      rw [List.filterMap_cons_none hce]
      apply ih pre
      · simp only [hdb1]
        rw [GoMap.delete_append, GoMap.delete_cons_self, GoMap.delete_of_not_mem pre hash hpre,
          GoMap.delete_of_not_mem rest hash hrest]
      · have : (pre.map Prod.fst ++ rest.map Prod.fst).Nodup :=
          List.Nodup.sublist (List.Sublist.append_left (List.sublist_cons_self _ _) _) hnd'
        simpa [GoMap.keysNodup] using this
      · intro e he
        exact hsw e (List.mem_cons_of_mem _ he)
    · rw [if_neg hz]
      have hce : cleanEntry now CleanTimeout (hash, peermap) =
          some (hash, peermap.filter (fun x => kept now CleanTimeout x.2)) := by
        simp only [cleanEntry]; rw [if_neg hz]
      rw [List.filterMap_cons_some hce]
      have := ih (pre ++ [(hash, peermap.filter (fun x => kept now CleanTimeout x.2))])
        (cleanPeers now CleanTimeout hash peermap st) (by simp [hdb1])
        (by simpa [GoMap.keysNodup] using hnd')
        (fun e he => hsw e (List.mem_cons_of_mem _ he))
      simpa using this

theorem Clean_db (now CleanTimeout : Int) (db : PeerDatabase) (hwf : db.WF) :
    (PeerDatabase.Clean now CleanTimeout db).db = db.filterMap (cleanEntry now CleanTimeout) := by
  have := cleanHashes_db now CleanTimeout db [] { db := db, peers := 0, hashes := 0 } rfl
    (by simpa using hwf.1) hwf.2
  simpa [PeerDatabase.Clean] using this


theorem get?_filterMap_cleanEntry (now CleanTimeout : Int) (db : PeerDatabase) (h : Hash)
    (hnd : GoMap.keysNodup db) :
    GoMap.get? (db.filterMap (cleanEntry now CleanTimeout)) h =
      (GoMap.get? db h).bind (fun swarm => (cleanEntry now CleanTimeout (h, swarm)).map Prod.snd) := by
  induction db with
  | nil => rfl
  | cons e rest ih =>
    obtain ⟨k, pm⟩ := e
    have hrest : GoMap.keysNodup rest := (List.nodup_cons.mp hnd).2
    have hk : k ∉ rest.map Prod.fst := (List.nodup_cons.mp hnd).1
    by_cases hkh : k = h
    · subst hkh
      simp only [GoMap.get?, if_true, Option.some_bind]
      by_cases hz : (pm.filter (fun x => kept now CleanTimeout x.2)).length = 0
      · have hce : cleanEntry now CleanTimeout (k, pm) = none := by
          simp only [cleanEntry]; rw [if_pos hz]
        rw [List.filterMap_cons_none hce, hce, ih hrest,
          GoMap.get?_eq_none_of_not_mem rest k hk]
        rfl
      · have hce : cleanEntry now CleanTimeout (k, pm) =
            some (k, pm.filter (fun x => kept now CleanTimeout x.2)) := by
          simp only [cleanEntry]; rw [if_neg hz]
        rw [List.filterMap_cons_some hce, hce]
        simp [GoMap.get?]
    · have hstep : GoMap.get? (((k, pm) :: rest).filterMap (cleanEntry now CleanTimeout)) h =
          GoMap.get? (rest.filterMap (cleanEntry now CleanTimeout)) h := by
        by_cases hz : (pm.filter (fun x => kept now CleanTimeout x.2)).length = 0
        · have hce : cleanEntry now CleanTimeout (k, pm) = none := by
            simp only [cleanEntry]; rw [if_pos hz]
          rw [List.filterMap_cons_none hce]
        · have hce : cleanEntry now CleanTimeout (k, pm) =
              some (k, pm.filter (fun x => kept now CleanTimeout x.2)) := by
            simp only [cleanEntry]; rw [if_neg hz]
          rw [List.filterMap_cons_some hce]
          simp only [GoMap.get?, if_neg hkh]
      rw [hstep, ih hrest]
      simp only [GoMap.get?, if_neg hkh]

theorem mem_filterMap_cleanEntry (now CleanTimeout : Int) (db : PeerDatabase)
    (e : Hash × PeerMap) (he : e ∈ db.filterMap (cleanEntry now CleanTimeout)) :
    e.2.length ≠ 0 ∧ ∃ swarm, (e.1, swarm) ∈ db ∧
      e.2 = swarm.filter (fun x => kept now CleanTimeout x.2) := by
  rw [List.mem_filterMap] at he
  obtain ⟨⟨k, pm⟩, hmem, hce⟩ := he
  simp only [cleanEntry] at hce
  by_cases hz : (pm.filter (fun x => kept now CleanTimeout x.2)).length = 0
  · rw [if_pos hz] at hce; cases hce
  · rw [if_neg hz] at hce
    cases hce
    exact ⟨hz, pm, hmem, rfl⟩

theorem WF_filterMap_cleanEntry (now CleanTimeout : Int) (db : PeerDatabase) (hwf : db.WF) :
    PeerDatabase.WF (db.filterMap (cleanEntry now CleanTimeout)) := by
  constructor
  · have hnd : GoMap.keysNodup db := hwf.1
    clear hwf
    induction db with
    | nil => simp [GoMap.keysNodup]
    | cons e rest ih =>
      obtain ⟨k, pm⟩ := e
      have hrest : GoMap.keysNodup rest := (List.nodup_cons.mp hnd).2
      have hk : k ∉ rest.map Prod.fst := (List.nodup_cons.mp hnd).1
      by_cases hz : (pm.filter (fun x => kept now CleanTimeout x.2)).length = 0
      · have hce : cleanEntry now CleanTimeout (k, pm) = none := by
          simp only [cleanEntry]; rw [if_pos hz]
        rw [List.filterMap_cons_none hce]
        exact ih hrest
      · have hce : cleanEntry now CleanTimeout (k, pm) =
            some (k, pm.filter (fun x => kept now CleanTimeout x.2)) := by
          simp only [cleanEntry]; rw [if_neg hz]
        rw [List.filterMap_cons_some hce]
        unfold GoMap.keysNodup
        rw [List.map_cons, List.nodup_cons]
        refine ⟨?_, ih hrest⟩
        intro hmem
        rw [List.mem_map] at hmem
        obtain ⟨x, hx, hxk⟩ := hmem
        obtain ⟨_, swarm, hsw, _⟩ := mem_filterMap_cleanEntry now CleanTimeout rest x hx
        apply hk
        rw [List.mem_map]
        exact ⟨(x.1, swarm), hsw, hxk⟩
  · intro e he
    obtain ⟨_, swarm, hsw, heq⟩ := mem_filterMap_cleanEntry now CleanTimeout db e he
    rw [heq]
    exact GoMap.keysNodup_filter swarm _ (hwf.2 (e.1, swarm) hsw)

theorem peer?_filterMap_cleanEntry (now CleanTimeout : Int) (db : PeerDatabase) (hwf : db.WF)
    (h : Hash) (id : PeerID) :
    PeerDatabase.peer? (db.filterMap (cleanEntry now CleanTimeout)) h id =
      (db.peer? h id).filter (kept now CleanTimeout) := by
  unfold PeerDatabase.peer?
  rw [get?_filterMap_cleanEntry now CleanTimeout db h hwf.1]
  cases hg : GoMap.get? db h with
  | none => rfl
  | some swarm =>
    have hs : GoMap.keysNodup swarm := hwf.2 (h, swarm) (GoMap.mem_of_get?_eq_some db h swarm hg)
    have hf := GoMap.get?_filter swarm (kept now CleanTimeout) id hs
    simp only [Option.some_bind, cleanEntry]
    by_cases hz : (swarm.filter (fun x => kept now CleanTimeout x.2)).length = 0
    · rw [if_pos hz]
      rw [← hf, List.length_eq_zero.mp hz]
      rfl
    · rw [if_neg hz]
      exact hf


/-- C5: after `PeerDatabase.Clean` runs at time `now` on a database (a map of
maps), the peer stored under any hash and identifier is the one stored before
if `now - LastSeen ≤ CleanTimeout` held for it (the `int64` difference the
source computes), with every field unchanged, and no peer otherwise; and no
swarm left in the database has zero peers. A peer whose difference equals
`CleanTimeout` is therefore kept and one with a greater difference is gone. -/
theorem Clean_keeps_exactly_live_peers (now CleanTimeout : Int) (db : PeerDatabase)
    (hwf : db.WF) :
    (∀ (h : Hash) (id : PeerID),
      (PeerDatabase.Clean now CleanTimeout db).db.peer? h id =
        (db.peer? h id).filter
          (fun peer => decide (subInt64 now peer.LastSeen ≤ CleanTimeout))) ∧
    (∀ e ∈ (PeerDatabase.Clean now CleanTimeout db).db, e.2.length ≠ 0) ∧
    (PeerDatabase.Clean now CleanTimeout db).db.WF := by
  rw [Clean_db now CleanTimeout db hwf]
  refine ⟨?_, ?_, WF_filterMap_cleanEntry now CleanTimeout db hwf⟩
  · intro h id
    exact peer?_filterMap_cleanEntry now CleanTimeout db hwf h id
  · intro e he
    exact (mem_filterMap_cleanEntry now CleanTimeout db e he).1


theorem temp_ne_full (PeerDBFilename : String) :
    PeerDBTempFilename PeerDBFilename ≠ PeerDBFilename := by
  intro h
  have := congrArg String.length h
  simp [PeerDBTempFilename, String.length_append] at this
  revert this
  decide

/-- C7: `PeerDatabase.Load` tries the newer snapshot first. When `os.Stat`
succeeds for both the full and the temp file, the first name passed to `load`
is the temp file if and only if its modification time is strictly later than
the full file's, and the full file otherwise; when `os.Stat` succeeds for one
of them and reports the other as not existing, the one that exists is the
first name passed to `load`. -/
theorem Load_tries_newer_snapshot_first (gobDecode : GobDecode) (fs : FS)
    (PeerDBFilename : String) (PeerDB : PeerDatabase) :
    (∀ full temp : Int,
      (fs PeerDBFilename).stat = StatResult.info full →
      (fs (PeerDBTempFilename PeerDBFilename)).stat = StatResult.info temp →
      ((PeerDatabase.Load gobDecode fs PeerDBFilename PeerDB).attempts.head? =
          some (PeerDBTempFilename PeerDBFilename) ↔ temp > full) ∧
      ((PeerDatabase.Load gobDecode fs PeerDBFilename PeerDB).attempts.head? =
          some PeerDBFilename ↔ ¬ temp > full)) ∧
    (∀ full : Int,
      (fs PeerDBFilename).stat = StatResult.info full →
      (fs (PeerDBTempFilename PeerDBFilename)).stat = StatResult.notExist →
      (PeerDatabase.Load gobDecode fs PeerDBFilename PeerDB).attempts.head? =
        some PeerDBFilename) ∧
    (∀ temp : Int,
      (fs PeerDBFilename).stat = StatResult.notExist →
      (fs (PeerDBTempFilename PeerDBFilename)).stat = StatResult.info temp →
      (PeerDatabase.Load gobDecode fs PeerDBFilename PeerDB).attempts.head? =
        some (PeerDBTempFilename PeerDBFilename)) := by
  have hne := temp_ne_full PeerDBFilename
  refine ⟨?_, ?_, ?_⟩
  · intro full temp hf ht
    have ht' : (fs (PeerDBFilename ++ ".tmp")).stat = StatResult.info temp := ht
    unfold PeerDatabase.Load
    simp only [hf, ht']
    by_cases hlt : temp > full
    · simp only [hlt, if_true]
      rcases h1 : PeerDatabase.load gobDecode fs (PeerDBTempFilename PeerDBFilename) PeerDB
        with ⟨db1, _ | e1⟩
      · simp [hne]
      · simp only []
        rcases h2 : PeerDatabase.load gobDecode fs PeerDBFilename db1 with ⟨db2, _ | e2⟩ <;>
          simp [hne]
    · simp only [hlt, if_false]
      rcases h1 : PeerDatabase.load gobDecode fs PeerDBFilename PeerDB with ⟨db1, _ | e1⟩
      · simp [hne.symm]
      · simp only []
        rcases h2 : PeerDatabase.load gobDecode fs (PeerDBTempFilename PeerDBFilename) db1
          with ⟨db2, _ | e2⟩ <;> simp [hne.symm]
  · intro full hf ht
    have ht' : (fs (PeerDBFilename ++ ".tmp")).stat = StatResult.notExist := ht
    unfold PeerDatabase.Load
    simp only [hf, ht']
    rcases h1 : PeerDatabase.load gobDecode fs PeerDBFilename PeerDB with ⟨db1, _ | e1⟩
    · simp
    · simp only []
      rcases h2 : PeerDatabase.load gobDecode fs (PeerDBTempFilename PeerDBFilename) db1
        with ⟨db2, _ | e2⟩ <;> simp
  · intro temp hf ht
    have ht' : (fs (PeerDBFilename ++ ".tmp")).stat = StatResult.info temp := ht
    unfold PeerDatabase.Load
    simp only [hf, ht']
    rcases h1 : PeerDatabase.load gobDecode fs (PeerDBTempFilename PeerDBFilename) PeerDB
      with ⟨db1, _ | e1⟩
    · simp
    · simp only []
      rcases h2 : PeerDatabase.load gobDecode fs PeerDBFilename db1 with ⟨db2, _ | e2⟩ <;>
        simp


theorem Load_temp_first_shape (gobDecode : GobDecode) (fs : FS) (PeerDBFilename : String)
    (PeerDB : PeerDatabase) (l1 l2 l3 : List String) :
    (fun r : LoadRun => (r.db, r.attempts))
      (match PeerDatabase.load gobDecode fs (PeerDBTempFilename PeerDBFilename) PeerDB with
      | (db1, some _) =>
        match PeerDatabase.load gobDecode fs PeerDBFilename db1 with
        | (_, some _) =>
          { db := [], attempts := [PeerDBTempFilename PeerDBFilename, PeerDBFilename]
            log := l1 }
        | (db2, none) =>
          { db := db2, attempts := [PeerDBTempFilename PeerDBFilename, PeerDBFilename]
            log := l2 }
      | (db1, none) =>
        { db := db1, attempts := [PeerDBTempFilename PeerDBFilename], log := l3 }) =
    loadWithFallback gobDecode fs (PeerDBTempFilename PeerDBFilename) PeerDBFilename PeerDB := by
  unfold loadWithFallback
  rcases h1 : PeerDatabase.load gobDecode fs (PeerDBTempFilename PeerDBFilename) PeerDB
    with ⟨db1, _ | e1⟩
  · rfl
  · simp only []
    rcases h2 : PeerDatabase.load gobDecode fs PeerDBFilename db1 with ⟨db2, _ | e2⟩ <;> rfl

theorem Load_full_first_shape (gobDecode : GobDecode) (fs : FS) (PeerDBFilename : String)
    (PeerDB : PeerDatabase) (l1 l2 l3 : List String) :
    (fun r : LoadRun => (r.db, r.attempts))
      (match PeerDatabase.load gobDecode fs PeerDBFilename PeerDB with
      | (db1, some _) =>
        match PeerDatabase.load gobDecode fs (PeerDBTempFilename PeerDBFilename) db1 with
        | (_, some _) =>
          { db := [], attempts := [PeerDBFilename, PeerDBTempFilename PeerDBFilename]
            log := l1 }
        | (db2, none) =>
          { db := db2, attempts := [PeerDBFilename, PeerDBTempFilename PeerDBFilename]
            log := l2 }
      | (db1, none) =>
        { db := db1, attempts := [PeerDBFilename], log := l3 }) =
    loadWithFallback gobDecode fs PeerDBFilename (PeerDBTempFilename PeerDBFilename) PeerDB := by
  unfold loadWithFallback
  rcases h1 : PeerDatabase.load gobDecode fs PeerDBFilename PeerDB with ⟨db1, _ | e1⟩
  · rfl
  · simp only []
    rcases h2 : PeerDatabase.load gobDecode fs (PeerDBTempFilename PeerDBFilename) db1
      with ⟨db2, _ | e2⟩ <;> rfl

/-- C8: `PeerDatabase.Load` falls back and never fails. `Load` is a total
function, so it returns on every file system, decoder and database. When
`os.Stat` reports both files as not existing, `load` is not called and the
database is the empty map. In every other case one of the two files is tried
first and the other second, and the outcome is that of `loadWithFallback`: the
database the first successful `load` leaves, after one attempt if the first file
loads and after two if only the second does, or the empty map after two
attempts if both fail. -/
theorem Load_falls_back_never_fails (gobDecode : GobDecode) (fs : FS)
    (PeerDBFilename : String) (PeerDB : PeerDatabase) :
    ((fs PeerDBFilename).stat = StatResult.notExist →
      (fs (PeerDBTempFilename PeerDBFilename)).stat = StatResult.notExist →
      (PeerDatabase.Load gobDecode fs PeerDBFilename PeerDB).attempts = [] ∧
      (PeerDatabase.Load gobDecode fs PeerDBFilename PeerDB).db = []) ∧
    (¬ ((fs PeerDBFilename).stat = StatResult.notExist ∧
        (fs (PeerDBTempFilename PeerDBFilename)).stat = StatResult.notExist) →
      ∃ first second : String,
        ((first = PeerDBFilename ∧ second = PeerDBTempFilename PeerDBFilename) ∨
         (first = PeerDBTempFilename PeerDBFilename ∧ second = PeerDBFilename)) ∧
        ((PeerDatabase.Load gobDecode fs PeerDBFilename PeerDB).db,
         (PeerDatabase.Load gobDecode fs PeerDBFilename PeerDB).attempts) =
          loadWithFallback gobDecode fs first second PeerDB) := by
  have hT := Load_temp_first_shape gobDecode fs PeerDBFilename PeerDB
  have hF := Load_full_first_shape gobDecode fs PeerDBFilename PeerDB
  simp only [PeerDBTempFilename] at hT hF ⊢
  refine ⟨?_, ?_⟩
  · intro hf ht
    unfold PeerDatabase.Load
    simp [hf, ht]
  · intro hne
    unfold PeerDatabase.Load
    cases hf : (fs PeerDBFilename).stat <;> cases ht : (fs (PeerDBFilename ++ ".tmp")).stat
    case notExist.notExist => exact absurd ⟨hf, ht⟩ hne
    case info.info full temp =>
      by_cases hlt : temp > full
      · exact ⟨_, _, Or.inr ⟨rfl, rfl⟩, by simpa [hlt, PeerDBTempFilename] using hT _ _ _⟩
      · exact ⟨_, _, Or.inl ⟨rfl, rfl⟩, by simpa [hlt, PeerDBTempFilename] using hF _ _ _⟩
    case info.notExist full =>
      exact ⟨_, _, Or.inl ⟨rfl, rfl⟩, by simpa [PeerDBTempFilename] using hF _ _ _⟩
    case info.failed full =>
      exact ⟨_, _, Or.inl ⟨rfl, rfl⟩, by simpa [PeerDBTempFilename] using hF _ _ _⟩
    case notExist.info temp =>
      exact ⟨_, _, Or.inr ⟨rfl, rfl⟩, by simpa [PeerDBTempFilename] using hT _ _ _⟩
    case notExist.failed =>
      exact ⟨_, _, Or.inr ⟨rfl, rfl⟩, by simpa [PeerDBTempFilename] using hT _ _ _⟩
    case failed.info temp =>
      exact ⟨_, _, Or.inl ⟨rfl, rfl⟩, by simpa [PeerDBTempFilename] using hF _ _ _⟩
    case failed.notExist =>
      exact ⟨_, _, Or.inl ⟨rfl, rfl⟩, by simpa [PeerDBTempFilename] using hF _ _ _⟩
    case failed.failed =>
      exact ⟨_, _, Or.inl ⟨rfl, rfl⟩, by simpa [PeerDBTempFilename] using hF _ _ _⟩


/-- C6: snapshot round trip. Let `Write` run at time `now` on a database `D` (a
map of maps), and assume the gob decoder, run on an empty database, gives back
the database the encoder was given. Then `Write` calls `ioutil.WriteFile` once,
and `load` of the file so written into an empty database succeeds and yields
`D` restricted to the peers with `now - LastSeen ≤ CleanTimeout`: every such
peer is there with every field unchanged, no other peer is, and the loaded
database is the one `Write` left in memory. -/
theorem Write_then_load_round_trip (gobEncode : GobEncode) (gobDecode : GobDecode)
    (writeFile : String → List Byte → Option String) (fs : FS)
    (now CleanTimeout mtime : Int) (PeerDBFilename : String) (istemp : Bool)
    (D : PeerDatabase) (hwf : D.WF)
    (hinv : gobDecode (gobEncode (PeerDatabase.Clean now CleanTimeout D).db).1 [] =
      ((PeerDatabase.Clean now CleanTimeout D).db, none)) :
    ∃ (file : String) (data : List Byte) (loaded : PeerDatabase),
      (PeerDatabase.Write gobEncode writeFile now CleanTimeout PeerDBFilename istemp D).writes =
        [(file, data)] ∧
      PeerDatabase.load gobDecode (fs.writeFile file data mtime) file [] = (loaded, none) ∧
      loaded =
        (PeerDatabase.Write gobEncode writeFile now CleanTimeout PeerDBFilename istemp D).db ∧
      ∀ (h : Hash) (id : PeerID),
        loaded.peer? h id =
          (D.peer? h id).filter
            (fun peer => decide (subInt64 now peer.LastSeen ≤ CleanTimeout)) := by
  refine ⟨if istemp then PeerDBTempFilename PeerDBFilename else PeerDBFilename,
    (gobEncode (PeerDatabase.Clean now CleanTimeout D).db).1,
    (PeerDatabase.Clean now CleanTimeout D).db, ?_, ?_, ?_, ?_⟩
  · simp [PeerDatabase.Write]
  · simp [PeerDatabase.load, FS.writeFile, hinv]
  · simp [PeerDatabase.Write]
  · intro h id
    rw [Clean_db now CleanTimeout D hwf]
    exact peer?_filterMap_cleanEntry now CleanTimeout D hwf h id

end Shared
end Trakx

namespace Trakx
namespace Binary

theorem val_ofNat (a : Nat) : (Fin.ofNat a : Fin 256).val = a % 256 := rfl

theorem be32_length (v : Int) : (be32 v).length = 4 := rfl

theorem beNat_be32 (v : Int) : beNat (be32 v) = (v % 2 ^ 32).toNat := by
  have h0 : 0 ≤ v % 2 ^ 32 := Int.emod_nonneg _ (by norm_num)
  have h1 : v % 2 ^ 32 < 2 ^ 32 := Int.emod_lt_of_pos _ (by norm_num)
  generalize hn : (v % 2 ^ 32).toNat = n
  have hlt : n < 4294967296 := by
    have : (n : Int) = v % 2 ^ 32 := by rw [← hn]; exact Int.toNat_of_nonneg h0
    have h2 : (n : Int) < 4294967296 := by rw [this]; simpa using h1
    exact_mod_cast h2
  simp only [be32, hn, beNat, List.foldl, val_ofNat]
  norm_num
  omega

theorem toSigned_beNat_be32 (v : Int) : toSigned 32 (beNat (be32 v)) = wrapInt32 v := by
  rw [beNat_be32]
  have h0 : 0 ≤ v % 2 ^ 32 := Int.emod_nonneg _ (by norm_num)
  have h1 : v % 2 ^ 32 < 2 ^ 32 := Int.emod_lt_of_pos _ (by norm_num)
  unfold toSigned wrapInt32
  have hc : (((v % 2 ^ 32).toNat : Nat) : Int) = v % 2 ^ 32 := Int.toNat_of_nonneg h0
  by_cases hlt : (v % 2 ^ 32).toNat < 2 ^ (32 - 1)
  · rw [if_pos hlt, hc]
    have : v % 2 ^ 32 < 2 ^ 31 := by
      have h2 : (((v % 2 ^ 32).toNat : Nat) : Int) < 2 ^ 31 := by exact_mod_cast hlt
      rwa [hc] at h2
    norm_num at this h0 h1 ⊢
    omega
  · rw [if_neg hlt, hc]
    have : 2 ^ 31 ≤ v % 2 ^ 32 := by
      have h2 : (2 : Int) ^ 31 ≤ (((v % 2 ^ 32).toNat : Nat) : Int) := by
        exact_mod_cast not_lt.mp hlt
      rwa [hc] at h2
    norm_num at this h0 h1 ⊢
    omega

theorem wrapInt32_of_range (v : Int) (h1 : -2 ^ 31 ≤ v) (h2 : v < 2 ^ 31) : wrapInt32 v = v := by
  unfold wrapInt32
  norm_num at h1 h2 ⊢
  omega

end Binary

namespace UDP

open Shared Binary

theorem infoBytes_length (e : scrapeInfo) : (infoBytes e).length = 12 := rfl

theorem flatMap_infoBytes_length (l : List scrapeInfo) :
    (l.flatMap infoBytes).length = 12 * l.length := by
  induction l with
  | nil => rfl
  | cons e rest ih =>
    rw [List.flatMap_cons, List.length_append, ih, infoBytes_length, List.length_cons]
    omega

theorem flatMap_infoBytes_slice (l : List scrapeInfo) :
    ∀ (i : Nat) (hi : i < l.length),
      ((l.flatMap infoBytes).drop (12 * i)).take 12 = infoBytes (l.get ⟨i, hi⟩) := by
  induction l with
  | nil => intro i hi; exact absurd hi (Nat.not_lt_zero _)
  | cons e rest ih =>
    intro i hi
    cases i with
    | zero =>
      rw [List.flatMap_cons]
      simp only [Nat.mul_zero, List.drop_zero, List.get_cons_zero]
      rw [List.take_append_of_le_length (by rw [infoBytes_length])]
      exact List.take_of_length_le (by rw [infoBytes_length])
    | succ j =>
      have hj : j < rest.length := Nat.lt_of_succ_lt_succ hi
      rw [List.flatMap_cons]
      have hd : ((infoBytes e ++ rest.flatMap infoBytes).drop (12 * (j + 1))) =
          (rest.flatMap infoBytes).drop (12 * j) := by
        have : 12 * (j + 1) = (infoBytes e).length + 12 * j := by
          rw [infoBytes_length]; omega
        rw [this, List.drop_append]
      rw [hd]
      exact ih j hj

theorem marshall_eq (sr : scrapeResp) :
    sr.marshall =
      .ok (be32 sr.Action ++ be32 sr.TransactionID ++ sr.Info.flatMap infoBytes) := rfl

/-- C10: for every `scrapeResp` with `N` info entries `marshall` succeeds and
returns `8 + 12 * N` octets: the 4 octets of `Action`, the 4 octets of
`TransactionID`, then for the `i`-th entry, at offset `8 + 12 * i`, the 4 octets
each of `Complete`, `Downloaded` and `Incomplete`. The 4 octets of a value are
its big-endian two's-complement form: read as a big-endian number they are the
value modulo `2 ^ 32`, read as a signed 32-bit number they are the value
itself when it is in the range of `int32`; `-1` is `FF FF FF FF`. -/
theorem marshall_layout (sr : scrapeResp) :
    ∃ b : List Byte, sr.marshall = .ok b ∧
      b.length = 8 + 12 * sr.Info.length ∧
      b.take 4 = be32 sr.Action ∧
      (b.drop 4).take 4 = be32 sr.TransactionID ∧
      (∀ (i : Nat) (hi : i < sr.Info.length),
        (b.drop (8 + 12 * i)).take 12 =
          be32 (sr.Info.get ⟨i, hi⟩).Complete ++ be32 (sr.Info.get ⟨i, hi⟩).Downloaded ++
            be32 (sr.Info.get ⟨i, hi⟩).Incomplete) ∧
      (∀ v : Int, (be32 v).length = 4 ∧ beNat (be32 v) = (v % 2 ^ 32).toNat ∧
        (-2 ^ 31 ≤ v → v < 2 ^ 31 → toSigned 32 (beNat (be32 v)) = v)) ∧
      be32 (-1) = [255, 255, 255, 255] := by
  refine ⟨_, marshall_eq sr, ?_, ?_, ?_, ?_, ?_, by decide⟩
  · rw [List.length_append, List.length_append, be32_length, be32_length,
      flatMap_infoBytes_length]
  · rw [List.append_assoc, List.take_append_of_le_length (by rw [be32_length])]
    exact List.take_of_length_le (by rw [be32_length])
  · have hd : (be32 sr.Action ++ (be32 sr.TransactionID ++ sr.Info.flatMap infoBytes)).drop 4 =
        be32 sr.TransactionID ++ sr.Info.flatMap infoBytes :=
      List.drop_left' (be32_length _)
    rw [List.append_assoc, hd]
    rw [List.take_append_of_le_length (Nat.le_of_eq (be32_length _).symm)]
    exact List.take_of_length_le (Nat.le_of_eq (be32_length _))
  · intro i hi
    have h8 : 8 + 12 * i = (be32 sr.Action ++ be32 sr.TransactionID).length + 12 * i := rfl
    rw [h8, List.drop_append]
    exact flatMap_infoBytes_slice sr.Info i hi
  · intro v
    refine ⟨rfl, beNat_be32 v, ?_⟩
    intro h1 h2
    rw [toSigned_beNat_be32, wrapInt32_of_range v h1 h2]

end UDP
end Trakx

namespace Trakx
namespace UDP

open Shared Binary

theorem scrapeLoop_eq (db : PeerDatabase) (tx : Int) (hashes : List Hash) :
    ∀ resp : scrapeResp,
      scrapeLoop db tx hashes resp =
        .ok { resp with Info := resp.Info ++ hashes.map (statsEntry db) } := by
  induction hashes with
  | nil => intro resp; simp [scrapeLoop]
  | cons hash rest ih =>
    intro resp
    rw [scrapeLoop, if_neg (by simp [hash.size]), ih]
    simp [statsEntry]

theorem scrape_sent_of_le (db : PeerDatabase) (ev : Expvar) (s : scrape) (remote : UDPAddr)
    (hn : ¬ s.InfoHash.length > 74) :
    (udpTracker.scrape db ev s remote).sent =
      [(Datagram.response
          (be32 2 ++ be32 s.Base.TransactionID ++
            (s.InfoHash.map (statsEntry db)).flatMap infoBytes), remote)] := by
  unfold udpTracker.scrape
  rw [if_neg hn]
  simp only [scrapeLoop_eq, marshall_eq, List.nil_append]

/-- C3: a scrape request with more than 74 info hashes makes `udpTracker.scrape`
write exactly one datagram, the client error built from the request's
`TransactionID`, and no scrape response; a request with at most 74 hashes (74
included) is not rejected for its size: the one datagram written is a scrape
response. -/
theorem scrape_rejects_more_than_74_hashes (db : PeerDatabase) (ev : Expvar) (s : scrape)
    (remote : UDPAddr) :
    if 74 < s.InfoHash.length then
      (udpTracker.scrape db ev s remote).sent =
        [(Datagram.clientError "74 hashes max" s.Base.TransactionID, remote)]
    else
      ∃ b : List Byte, (udpTracker.scrape db ev s remote).sent = [(Datagram.response b, remote)] := by
  by_cases hn : 74 < s.InfoHash.length
  · rw [if_pos hn]
    unfold udpTracker.scrape
    rw [if_pos hn]
  · rw [if_neg hn]
    exact ⟨_, scrape_sent_of_le db ev s remote hn⟩

/-- C4: for a scrape request with `n ≤ 74` info hashes the loop of
`udpTracker.scrape` builds a response with `Action = 2`, the request's
`TransactionID` and `n` entries in request order, the `i`-th being
`(c, -1, l)` with `(c, l) = PeerDB.HashStats` of the `i`-th hash; a hash with no
swarm in the database contributes `(0, -1, 0)`; and the one datagram written is
that response marshalled. -/
theorem scrape_builds_stats_response (db : PeerDatabase) (ev : Expvar) (s : scrape)
    (remote : UDPAddr) (hn : s.InfoHash.length ≤ 74) :
    ∃ (resp : scrapeResp) (b : List Byte),
      scrapeLoop db s.Base.TransactionID s.InfoHash
        { Action := 2, TransactionID := s.Base.TransactionID, Info := [] } = .ok resp ∧
      resp.marshall = .ok b ∧
      (udpTracker.scrape db ev s remote).sent = [(Datagram.response b, remote)] ∧
      resp.Action = 2 ∧
      resp.TransactionID = s.Base.TransactionID ∧
      resp.Info.length = s.InfoHash.length ∧
      (∀ (i : Nat) (hi : i < s.InfoHash.length),
        resp.Info[i]? =
          some { Complete := (db.HashStats (s.InfoHash.get ⟨i, hi⟩)).1
                 Downloaded := -1
                 Incomplete := (db.HashStats (s.InfoHash.get ⟨i, hi⟩)).2 }) ∧
      (∀ (i : Nat) (hi : i < s.InfoHash.length),
        GoMap.get? db (s.InfoHash.get ⟨i, hi⟩) = none →
        resp.Info[i]? = some { Complete := 0, Downloaded := -1, Incomplete := 0 }) := by
  have hentry : ∀ (i : Nat) (hi : i < s.InfoHash.length),
      (s.InfoHash.map (statsEntry db))[i]? = some (statsEntry db (s.InfoHash.get ⟨i, hi⟩)) := by
    intro i hi
    rw [List.getElem?_map, List.getElem?_eq_getElem hi]
    rfl
  refine ⟨_, _, scrapeLoop_eq db _ _ _, marshall_eq _, ?_, rfl, rfl, ?_, ?_, ?_⟩
  · rw [scrape_sent_of_le db ev s remote (not_lt.mpr hn)]
    simp
  · simp
  · intro i hi
    simpa [statsEntry] using hentry i hi
  · intro i hi hnone
    have := hentry i hi
    simp only [statsEntry, PeerDatabase.HashStats, hnone] at this
    simpa using this

/-- C9 fails on the code: a datagram of 15 octets, shorter than the 16-byte
header, makes `scrape.unmarshall` panic instead of returning an error. When the
slice has no spare capacity the bound of `data[:16]` is out of range; when it
is the front of a larger buffer `data[:16]` is in range and the bound of
`data[16:]` is not. -/
theorem unmarshall_panics_on_short_datagram :
    scrape.unmarshall { Base := ⟨0, 0, 0⟩, InfoHash := [] }
        { elems := List.replicate 15 0, spare := [] } =
      Run.panicked "slice bounds out of range [:16]" ∧
    scrape.unmarshall { Base := ⟨0, 0, 0⟩, InfoHash := [] }
        { elems := List.replicate 15 0, spare := List.replicate 17 0 } =
      Run.panicked "slice bounds out of range [16:]" := by
  constructor <;> decide

theorem readConnect_of_sliceTo (data : ByteSlice) (head : List Byte)
    (hs : data.sliceTo 16 = some head) : ∃ base, readConnect head = .ok base := by
  unfold ByteSlice.sliceTo at hs
  by_cases hc : ((16 : Nat) : Int) ≤ data.cap
  · rw [if_pos hc] at hs
    cases hs
    have hlen : ((data.elems ++ data.spare).take 16).length = 16 := by
      rw [List.length_take, List.length_append]
      have : (16 : Int) ≤ (data.elems.length : Int) + (data.spare.length : Int) := by
        simpa [ByteSlice.cap] using hc
      omega
    unfold readConnect
    rw [if_neg (by omega), if_neg (by omega)]
    exact ⟨_, rfl⟩
  · rw [if_neg hc] at hs
    cases hs

/-- Every datagram shorter than 16 octets makes `scrape.unmarshall` panic. -/
theorem unmarshall_panics_below_16 (s : scrape) (data : ByteSlice) (h : data.len < 16) :
    ∃ msg, scrape.unmarshall s data = Run.panicked msg := by
  have hfrom : data.sliceFrom 16 = none := by
    unfold ByteSlice.sliceFrom
    rw [if_neg (by push_cast; omega)]
  unfold scrape.unmarshall
  cases hs : data.sliceTo 16 with
  | none => exact ⟨_, rfl⟩
  | some head =>
    obtain ⟨base, hb⟩ := readConnect_of_sliceTo data head hs
    simp only [hb, hfrom]
    by_cases hneg : Int.tdiv (data.len - 16) 20 < 0
    · rw [if_pos hneg]; exact ⟨_, rfl⟩
    · rw [if_neg hneg]; exact ⟨_, rfl⟩

theorem takeHashes_of_length (n : Nat) :
    ∀ b : List Byte, 20 * n ≤ b.length →
      ∃ hs, takeHashes n b = some hs ∧ hs.length = n := by
  induction n with
  | zero => intro b _; exact ⟨[], rfl, rfl⟩
  | succ k ih =>
    intro b hb
    have h20 : (b.take 20).length = 20 := by
      rw [List.length_take]; omega
    obtain ⟨rest, hrest, hlen⟩ := ih (b.drop 20) (by rw [List.length_drop]; omega)
    refine ⟨⟨b.take 20, h20⟩ :: rest, ?_, by rw [List.length_cons, hlen]⟩
    rw [takeHashes, dif_pos h20, hrest]

/-- Every datagram of at least 16 octets is decoded: the header from the first
16 octets, then as many hashes as fit in whole, what is left over being
ignored. -/
theorem unmarshall_returns_from_16 (s : scrape) (data : ByteSlice) (h : 16 ≤ data.len) :
    ∃ base hashes,
      scrape.unmarshall s data = Run.returned (none, { Base := base, InfoHash := hashes }) ∧
      (hashes.length : Int) = (data.len - 16) / 20 := by
  have hlen : 16 ≤ data.elems.length := by
    have : (16 : Int) ≤ (data.elems.length : Int) := by simpa [ByteSlice.len] using h
    omega
  have hto : data.sliceTo 16 = some ((data.elems ++ data.spare).take 16) := by
    unfold ByteSlice.sliceTo
    rw [if_pos (by simp only [ByteSlice.cap]; push_cast; omega)]
  have hfrom : data.sliceFrom 16 = some (data.elems.drop 16) := by
    unfold ByteSlice.sliceFrom
    rw [if_pos (by simp only [ByteSlice.len]; push_cast; omega)]
  obtain ⟨base, hb⟩ := readConnect_of_sliceTo data _ hto
  have hsub : data.len - 16 = ((data.elems.length - 16 : Nat) : Int) := by
    simp only [ByteSlice.len]; omega
  have htd : Int.tdiv (data.len - 16) 20 = (((data.elems.length - 16) / 20 : Nat) : Int) := by
    rw [hsub]; exact (Int.ofNat_tdiv _ _).symm
  have hdiv : (data.len - 16) / 20 = (((data.elems.length - 16) / 20 : Nat) : Int) := by
    rw [hsub]; rfl
  obtain ⟨hs, hhs, hhl⟩ := takeHashes_of_length ((data.elems.length - 16) / 20)
    (data.elems.drop 16) (by rw [List.length_drop]; omega)
  refine ⟨base, hs, ?_, by rw [hhl, hdiv]⟩
  unfold scrape.unmarshall
  simp only [hto, hb, hfrom, htd]
  rw [if_neg (by omega)]
  simp only [Int.toNat_ofNat]
  unfold readHashes
  by_cases hz : (data.elems.length - 16) / 20 = 0
  · rw [if_pos hz]
    rw [hz] at hhs
    simp only [takeHashes] at hhs
    cases hhs
    rfl
  · rw [if_neg hz, if_neg (by rw [List.length_drop]; omega), hhs]

/-- `Process` itself never calls `WriteToUDP`. -/
theorem Process_never_writes {Ann : Type} (unmarshall : List Byte → Connect)
    (check : Int → List Byte → Bool) (annMarshall : List Byte → Ann)
    (len : Int) (remote : UDPAddr) (data : List Byte) (b : List Byte) (r : UDPAddr) :
    Effect.writeToUDP b r ∉ Process unmarshall check annMarshall len remote data := by
  unfold Process
  simp only []
  split
  · simp
  · split <;> split <;> (try split) <;> simp

/-- After a failed check `Process` still dispatches on the action. -/
theorem Process_dispatches_after_failed_check {Ann : Type} (unmarshall : List Byte → Connect)
    (check : Int → List Byte → Bool) (annMarshall : List Byte → Ann)
    (len : Int) (remote : UDPAddr) (data : List Byte)
    (hcheck : check (unmarshall data).ConnectionID (copy4 remote.IP) = false) :
    ((unmarshall data).Action = 1 →
      Effect.announceHandler (annMarshall data) remote ∈
        Process unmarshall check annMarshall len remote data) ∧
    ((unmarshall data).Action = 2 →
      Effect.scrapeHandler remote ∈ Process unmarshall check annMarshall len remote data) := by
  constructor
  · intro ha
    unfold Process
    simp [ha, hcheck]
  · intro ha
    unfold Process
    simp [ha, hcheck]

/-- C1 fails on the code: for a datagram that is not a connect request
(connection id 1, action 0, transaction id 7) and a connection id the database
rejects, all that `Process` does is marshal the error value
`(3, 7, "Invalid ConnectionID")` and drop the result; no datagram is written. -/
theorem Process_drops_invalid_connection_error :
    Process decodeHeader noConnections (fun data => data) 16 sampleRemote staleHeader =
      [Effect.errorMarshall
        { Action := 3, TransactionID := 7, ErrorString := asciiBytes "Invalid ConnectionID" }] := by
  decide

/-- C2 fails on the code: with a connection id the database rejects, an
announce request still reaches the Announce handler and a scrape request still
reaches the Scrape handler. -/
theorem Process_runs_handlers_after_failed_check :
    Process decodeHeader noConnections (fun data => data) 98 sampleRemote staleAnnounce =
      [Effect.errorMarshall
        { Action := 3, TransactionID := 7, ErrorString := asciiBytes "Invalid ConnectionID" },
       Effect.announceHandler staleAnnounce sampleRemote] ∧
    Process decodeHeader noConnections (fun data => data) 36 sampleRemote staleScrape =
      [Effect.errorMarshall
        { Action := 3, TransactionID := 7, ErrorString := asciiBytes "Invalid ConnectionID" },
       Effect.scrapeHandler sampleRemote] := by
  constructor <;> decide

/-- The C4 theorem at `sampleScrape` on `sampleDB`: three hashes, the first with
one seeder and one leecher, the last unknown to the database. -/
theorem scrape_builds_stats_response_witness :
    sampleScrape.InfoHash.length ≤ 74 ∧
    ∃ resp : scrapeResp,
      scrapeLoop sampleDB 7 sampleScrape.InfoHash { Action := 2, TransactionID := 7, Info := [] } =
        .ok resp ∧
      resp.Info[0]? = some { Complete := 1, Downloaded := -1, Incomplete := 1 } ∧
      resp.Info[2]? = some { Complete := 0, Downloaded := -1, Incomplete := 0 } := by
  refine ⟨by decide, ?_⟩
  obtain ⟨resp, _, hloop, _, _, _, _, _, hstats, hnone⟩ :=
    scrape_builds_stats_response sampleDB ⟨0, 0⟩ sampleScrape sampleRemote (by decide)
  refine ⟨resp, hloop, ?_, hnone 2 (by decide) (by decide)⟩
  rw [hstats 0 (by decide)]
  decide

end UDP

namespace Shared

/-- The C5 theorem at `sampleDB`, cleaned at time 100 with a timeout of 60: the
peer last seen at 40 stays as it was, the peer last seen at 39 is gone. -/
theorem Clean_keeps_exactly_live_peers_witness :
    sampleDB.WF ∧
    (PeerDatabase.Clean 100 60 sampleDB).db.peer? (Hash.ofByte 1) (PeerID.ofByte 2) =
      some { Complete := false, IP := [10, 0, 0, 2], Port := 6882, LastSeen := 40 } ∧
    (PeerDatabase.Clean 100 60 sampleDB).db.peer? (Hash.ofByte 2) (PeerID.ofByte 1) = none := by
  have h := (Clean_keeps_exactly_live_peers 100 60 sampleDB (by decide)).1
  refine ⟨by decide, ?_, ?_⟩
  · rw [h]; decide
  · rw [h]; decide

/-- The C7 theorem at `sampleFS`, where the temp snapshot is the newer one. -/
theorem Load_tries_newer_snapshot_first_witness :
    (sampleFS "trakx.db").stat = StatResult.info 100 ∧
    (sampleFS (PeerDBTempFilename "trakx.db")).stat = StatResult.info 200 ∧
    (PeerDatabase.Load rejectAll sampleFS "trakx.db" []).attempts.head? =
      some (PeerDBTempFilename "trakx.db") :=
  ⟨by decide, by decide,
    (((Load_tries_newer_snapshot_first rejectAll sampleFS "trakx.db" []).1 100 200
      (by decide) (by decide)).1).mpr (by decide)⟩

/-- The C8 theorem at `emptyFS`, where neither snapshot exists. -/
theorem Load_falls_back_never_fails_witness :
    (emptyFS "trakx.db").stat = StatResult.notExist ∧
    (emptyFS (PeerDBTempFilename "trakx.db")).stat = StatResult.notExist ∧
    (PeerDatabase.Load rejectAll emptyFS "trakx.db" sampleDB).attempts = [] ∧
    (PeerDatabase.Load rejectAll emptyFS "trakx.db" sampleDB).db = [] :=
  ⟨by decide, by decide,
    (Load_falls_back_never_fails rejectAll emptyFS "trakx.db" sampleDB).1 (by decide) (by decide)⟩


/-- The C6 theorem at `sampleDB` with the sample codec: written at time 100
with a timeout of 60 and loaded again. -/
theorem Write_then_load_round_trip_witness :
    sampleDB.WF ∧
    sampleDecode (sampleEncode (PeerDatabase.Clean 100 60 sampleDB).db).1 [] =
      ((PeerDatabase.Clean 100 60 sampleDB).db, none) ∧
    ∃ (file : String) (data : List Byte) (loaded : PeerDatabase),
      (PeerDatabase.Write sampleEncode (fun _ _ => none) 100 60 "trakx.db" true sampleDB).writes =
        [(file, data)] ∧
      PeerDatabase.load sampleDecode (emptyFS.writeFile file data 100) file [] = (loaded, none) ∧
      loaded.peer? (Hash.ofByte 1) (PeerID.ofByte 2) =
        some { Complete := false, IP := [10, 0, 0, 2], Port := 6882, LastSeen := 40 } ∧
      loaded.peer? (Hash.ofByte 2) (PeerID.ofByte 1) = none := by
  refine ⟨by decide, by decide, ?_⟩
  obtain ⟨file, data, loaded, hw, hl, _, hp⟩ :=
    Write_then_load_round_trip sampleEncode sampleDecode (fun _ _ => none) emptyFS 100 60 100
      "trakx.db" true sampleDB (by decide) (by decide)
  refine ⟨file, data, loaded, hw, hl, ?_, ?_⟩
  · rw [hp]; decide
  · rw [hp]; decide

/-! ## `Write` -/

/-- C11: on every call `PeerDatabase.Write` calls `ioutil.WriteFile` exactly
once, with the temp file name if and only if `istemp` is true and with the full
file name otherwise, and with whatever the gob encoder left in the buffer. This
is so also when the encoder returns an error: the error is logged, the call is
made all the same, and a file system on which it succeeds then holds the
encoder's partial output under that name in place of the snapshot that was
there. -/
theorem Write_writes_once_even_on_encode_error (gobEncode : GobEncode)
    (writeFile : String → List Byte → Option String) (now CleanTimeout : Int)
    (PeerDBFilename : String) (istemp : Bool) (PeerDB : PeerDatabase) :
    ∃ (file : String) (data : List Byte),
      (PeerDatabase.Write gobEncode writeFile now CleanTimeout PeerDBFilename istemp
        PeerDB).writes = [(file, data)] ∧
      (file = PeerDBTempFilename PeerDBFilename ↔ istemp = true) ∧
      (file = PeerDBFilename ↔ istemp = false) ∧
      data = (gobEncode (PeerDatabase.Clean now CleanTimeout PeerDB).db).1 ∧
      (∀ err : String,
        (gobEncode (PeerDatabase.Clean now CleanTimeout PeerDB).db).2 = some err →
        "db gob encoder" ∈
          (PeerDatabase.Write gobEncode writeFile now CleanTimeout PeerDBFilename istemp
            PeerDB).log ∧
        ∀ (fs : FS) (mtime : Int),
          ((fs.writeFile file data mtime) file).content =
            some (gobEncode (PeerDatabase.Clean now CleanTimeout PeerDB).db).1) := by
  have hne := temp_ne_full PeerDBFilename
  refine ⟨if istemp then PeerDBTempFilename PeerDBFilename else PeerDBFilename,
    (gobEncode (PeerDatabase.Clean now CleanTimeout PeerDB).db).1, ?_, ?_, ?_, rfl, ?_⟩
  · simp [PeerDatabase.Write]
  · cases istemp
    · simp [hne.symm]
    · simp
  · cases istemp
    · simp
    · simp [hne]
  · intro err herr
    refine ⟨?_, ?_⟩
    · unfold PeerDatabase.Write
      simp only [herr]
      cases writeFile (if istemp then PeerDBTempFilename PeerDBFilename else PeerDBFilename)
        (gobEncode (PeerDatabase.Clean now CleanTimeout PeerDB).db).1 <;> simp
    · intro fs mtime
      simp [FS.writeFile]

/-- The C11 theorem at `sampleDB` with an encoder that fails: the full snapshot
of `sampleFS` is replaced by the two octets the encoder left in the buffer. -/
theorem Write_writes_once_even_on_encode_error_witness :
    (failingEncode (PeerDatabase.Clean 100 60 sampleDB).db).2 =
      some "gob: type not registered" ∧
    (PeerDatabase.Write failingEncode writeSucceeds 100 60 "trakx.db" false sampleDB).writes =
      [("trakx.db", [3, 1])] ∧
    (sampleFS "trakx.db").content = some [1] ∧
    ((sampleFS.writeFile "trakx.db" [3, 1] 300) "trakx.db").content = some [3, 1] := by
  obtain ⟨file, data, hw, _, hfull, hdata, herr⟩ :=
    Write_writes_once_even_on_encode_error failingEncode writeSucceeds 100 60 "trakx.db" false
      sampleDB
  have hfile : file = "trakx.db" := hfull.mpr rfl
  have hd : data = [3, 1] := hdata
  subst hfile
  subst hd
  exact ⟨rfl, hw, by decide, (herr "gob: type not registered" rfl).2 sampleFS 300⟩

end Shared
end Trakx
